import Mathlib

/-!
Shallow embedding of `src/WIB2Frame.hpp` (class `WIB2Frame`: raw WIB v2 frame
access).  Machine integers are modelled as `Nat` with explicit `% 2 ^ w`
truncation wherever the C++ performs a conversion to a narrower unsigned type
or a shift of an unsigned 32-bit operand.  The fallible accessor `get_adc`
(which can throw `std::out_of_range` and whose body contains two `assert`
statements) is modelled as a total function into an explicit result type:
`AdcResult.outOfRange` is the thrown exception and `AdcResult.assertFail` is
an assert aborting before any out-of-extent array access would occur.
-/

namespace WIB2

/-- Header of a WIB2 frame (`struct Header`).  Each field stores the value of
the corresponding C++ bitfield; a field declared with width `w` physically
holds a value `< 2 ^ w`, which accessors that read a field enforce with an
explicit truncation where it matters. -/
structure Header where
  crate : Nat
  frame_version : Nat
  slot : Nat
  fiber : Nat
  femb_valid : Nat
  wib_code_1 : Nat
  wib_code_2 : Nat
  timestamp_1 : Nat
  timestamp_2 : Nat
deriving DecidableEq

/-- Trailer of a WIB2 frame (`struct Trailer`). -/
structure Trailer where
  crc20 : Nat
  flex_word_12 : Nat
  eof : Nat
  flex_word_24 : Nat
deriving DecidableEq

/-- A WIB2 frame: header, the 112-word packed ADC payload `word_t
adc_words[112]`, and trailer.  The payload array is modelled by its contents
function; only indices `0..111` are meaningful, and the embedding of
`get_adc` returns `AdcResult.assertFail` (the C++ `assert` aborting) before
any access outside that extent would happen. -/
structure WIB2Frame where
  header : Header
  adc_words : Nat → Nat
  trailer : Trailer

/-- Result of a call to `get_adc` (and of the wrappers that call it):
either a returned `uint16_t` value, the thrown `std::out_of_range`
exception, or an `assert` failure aborting the call. -/
inductive AdcResult
  | ok (v : Nat)
  | outOfRange
  | assertFail
deriving DecidableEq

/-- Line 73 of the source: `int word_index = BITS_PER_ADC * i / BITS_PER_WORD`
with `BITS_PER_ADC = 14`, `BITS_PER_WORD = 32` (for the nonnegative `i`
reaching this line, C++ `int` division is Nat division). -/
def word_index (n : Nat) : Nat := 14 * n / 32

/-- Line 76: `int first_bit_position = (BITS_PER_ADC * i) % BITS_PER_WORD`. -/
def first_bit_position (n : Nat) : Nat := (14 * n) % 32

/-- Line 78: `int bits_from_first_word = std::min(BITS_PER_ADC,
BITS_PER_WORD - first_bit_position)`. -/
def bits_from_first_word (n : Nat) : Nat := min 14 (32 - first_bit_position n)

/-- Line 81's branch condition, exactly as written in the source:
`bits_from_first_word < BITS_PER_WORD`, i.e. `bits_from_first_word i < 32`.
When it holds the body reads `adc_words[word_index + 1]`. -/
def reads_second_word (n : Nat) : Bool := bits_from_first_word n < 32

/-- Embedding of `uint16_t WIB2Frame::get_adc(int i)` (lines 65-87).

* line 67: `if (i < 0 || i > 255) throw std::out_of_range(...)`;
* line 74: `assert(word_index < 112)`;
* line 79: `uint16_t adc = adc_words[word_index] >> first_bit_position;`
  — the array element is a `uint32_t` (value `% 2 ^ 32`), the assignment
  truncates to `uint16_t` (`% 2 ^ 16`);
* line 81: `if (bits_from_first_word < BITS_PER_WORD)`;
* line 82: `assert(word_index + 1 < 112)`;
* line 83: `adc |= adc_words[word_index + 1] << bits_from_first_word;`
  — the shift is `uint32_t` arithmetic (`% 2 ^ 32`), the compound
  assignment truncates back to `uint16_t`;
* line 86: `return adc & 0x3FFFu;`. -/
def get_adc (f : WIB2Frame) (i : Int) : AdcResult :=
  if i < 0 ∨ 255 < i then .outOfRange
  else
    if word_index i.toNat < 112 then
      if reads_second_word i.toNat then
        if word_index i.toNat + 1 < 112 then
          .ok (((((f.adc_words (word_index i.toNat) % 2 ^ 32) >>>
                    first_bit_position i.toNat) % 2 ^ 16 |||
                 ((f.adc_words (word_index i.toNat + 1) % 2 ^ 32) <<<
                    bits_from_first_word i.toNat) % 2 ^ 32) % 2 ^ 16) &&&
               0x3FFF)
        else .assertFail
      else
        .ok ((((f.adc_words (word_index i.toNat) % 2 ^ 32) >>>
                 first_bit_position i.toNat) % 2 ^ 16) &&& 0x3FFF)
    else .assertFail

/-- Line 91: `uint16_t get_u(int femb, int i) { return get_adc(128 * femb + i); }`. -/
def get_u (f : WIB2Frame) (femb i : Int) : AdcResult := get_adc f (128 * femb + i)

/-- Line 94: `uint16_t get_v(int femb, int i) { return get_adc(128 * femb + 40 + i); }`. -/
def get_v (f : WIB2Frame) (femb i : Int) : AdcResult := get_adc f (128 * femb + 40 + i)

/-- Line 97: `uint16_t get_x(int femb, int i) { return get_adc(128 * femb + 40 + 40 + i); }`. -/
def get_x (f : WIB2Frame) (femb i : Int) : AdcResult :=
  get_adc f (128 * femb + 40 + 40 + i)

/-- Lines 101-103: `uint64_t timestamp() const { return header.timestamp_1 |
((uint64_t)header.timestamp_2 << 32); }`.  Reading each 32-bit bitfield
yields its stored value `% 2 ^ 32`; the widened shift and the `|` are
`uint64_t` arithmetic (`% 2 ^ 64`). -/
def timestamp (f : WIB2Frame) : Nat :=
  (f.header.timestamp_1 % 2 ^ 32) |||
    ((f.header.timestamp_2 % 2 ^ 32) <<< 32) % 2 ^ 64

/-- A header whose only nonzero fields are the two timestamp words. -/
def mkHeader (t1 t2 : Nat) : Header := ⟨0, 0, 0, 0, 0, 0, 0, t1, t2⟩

/-- An all-zero trailer. -/
def zeroTrailer : Trailer := ⟨0, 0, 0, 0⟩

/-- A frame whose bytes are all zero. -/
def zeroFrame : WIB2Frame := ⟨mkHeader 0 0, fun _ => 0, zeroTrailer⟩

/-- A frame whose 112 payload words are all `0xFFFFFFFF`. -/
def maxFrame : WIB2Frame := ⟨mkHeader 0 0, fun _ => 0xFFFFFFFF, zeroTrailer⟩

/-- A frame agreeing with `zeroFrame` except in payload word 1. -/
def oneWordFrame : WIB2Frame :=
  ⟨mkHeader 0 0, fun j => if j = 1 then 123 else 0, zeroTrailer⟩

/-- The frame whose timestamp header words are `0xFFFFFFFF` and `1`. -/
def tsFrame : WIB2Frame := ⟨mkHeader 0xFFFFFFFF 1, fun _ => 0, zeroTrailer⟩

/-- Modelled from the spec: the packed bit stream obtained by placing the
14-bit values `v k, v (k+1), ...` (fuel many of them) at bit offsets
`0, 14, 28, ...` — each value truncated to its 14-bit field. -/
def packFrom (v : Nat → Nat) (k : Nat) : Nat → Nat
  | 0 => 0
  | fuel + 1 => v k % 2 ^ 14 + 2 ^ 14 * packFrom v (k + 1) fuel

/-- Modelled from the spec: the payload bit stream packing the 256 values
`v 0 .. v 255` at bit offsets `14 * i` ("little-bit-endian" dense packing). -/
def packStream (v : Nat → Nat) : Nat := packFrom v 0 256

/-- Modelled from the spec: 32-bit payload word `w` of the packed stream
(words in ascending order, each holding 32 consecutive stream bits counted
from the least-significant bit of word 0 upward). -/
def packWord (v : Nat → Nat) (w : Nat) : Nat := (packStream v >>> (32 * w)) % 2 ^ 32

/-- A frame whose ADC payload is the spec's packing of `v 0 .. v 255`. -/
def packedFrame (v : Nat → Nat) : WIB2Frame := ⟨mkHeader 0 0, packWord v, zeroTrailer⟩

/-!
Bitfield placement.  The source declares the header and trailer as C++
bitfield structs over 32-bit `word_t` units.  Placement follows the rule
that every mainstream C++ implementation (Itanium ABI as used by GCC and
Clang, and MSVC, for this pattern of equal-typed fields without zero-width
members or packing pragmas) applies: a field of width `w` is allocated at
the current bit offset when `w` fits in the remaining bits of the current
32-bit unit, and otherwise at the start of the next unit.
-/

/-- Starting bit offset of a field of width `w` when the allocator stands at
bit offset `off`: stay if the field fits in the current 32-bit unit, else
advance to the next unit boundary. -/
def allocField (off w : Nat) : Nat :=
  if off % 32 + w ≤ 32 then off else 32 * (off / 32 + 1)

/-- Placements `(word index, low bit within word, width)` of a list of
bitfield widths allocated from bit offset `off`. -/
def allocFields (off : Nat) : List Nat → List (Nat × Nat × Nat)
  | [] => []
  | w :: ws =>
      (allocField off w / 32, allocField off w % 32, w) ::
        allocFields (allocField off w + w) ws

/-- Bit offset one past the last allocated field. -/
def allocEnd (off : Nat) : List Nat → Nat
  | [] => off
  | w :: ws => allocEnd (allocField off w + w) ws

/-- Declared widths of `struct Header`: `crate : 8, frame_version : 4,
slot : 3, fiber : 1, femb_valid : 2, wib_code_1 : 14`, then `wib_code_2 : 32`,
`timestamp_1 : 32`, `timestamp_2 : 32`. -/
def headerWidths : List Nat := [8, 4, 3, 1, 2, 14, 32, 32, 32]

/-- Declared widths of `struct Trailer`: `crc20 : 20, flex_word_12 : 12,
eof : 8, flex_word_24 : 24`. -/
def trailerWidths : List Nat := [20, 12, 8, 24]

/-- Bit offset one past the header: the header's size in bits. -/
def headerEndBit : Nat := allocEnd 0 headerWidths

/-- Bit offset one past `word_t adc_words[112]`, which begins at the first
word boundary after the header. -/
def adcEndBit : Nat := 32 * ((headerEndBit + 31) / 32) + 32 * 112

/-- Placements of the four trailer fields within the frame. -/
def trailerLayout : List (Nat × Nat × Nat) := allocFields adcEndBit trailerWidths

/-- Bit offset one past the trailer. -/
def frameEndBit : Nat := allocEnd adcEndBit trailerWidths

/-- Size of the whole frame in 32-bit words. -/
def frameSizeWords : Nat := (frameEndBit + 31) / 32

/-- Size of the whole frame in bytes. -/
def frameSizeBytes : Nat := 4 * frameSizeWords

/-- Placement `(word, low bit, width)` of the trailer's `eof` field. -/
def eofPlacement : Nat × Nat × Nat := trailerLayout.getD 2 (0, 0, 0)

/-- Placement `(word, low bit, width)` of the trailer's `flex_word_24` field. -/
def flexWord24Placement : Nat × Nat × Nat := trailerLayout.getD 3 (0, 0, 0)

/-!
State-passing translations for the mutation claim.  Each C++ accessor takes
the frame (`this`) as its implicit state; its body contains no assignment to
any member, only reads and locals, so the faithful state-passing translation
pairs each return value with the frame reaching that return statement.
-/

/-- State-passing translation of `get_adc`: same control flow and result as
`get_adc`, paired with the frame state at each return point. -/
def get_adc_st (f : WIB2Frame) (i : Int) : WIB2Frame × AdcResult :=
  if i < 0 ∨ 255 < i then (f, .outOfRange)
  else
    if word_index i.toNat < 112 then
      if reads_second_word i.toNat then
        if word_index i.toNat + 1 < 112 then
          (f, .ok (((((f.adc_words (word_index i.toNat) % 2 ^ 32) >>>
                        first_bit_position i.toNat) % 2 ^ 16 |||
                     ((f.adc_words (word_index i.toNat + 1) % 2 ^ 32) <<<
                        bits_from_first_word i.toNat) % 2 ^ 32) % 2 ^ 16) &&&
                   0x3FFF))
        else (f, .assertFail)
      else
        (f, .ok ((((f.adc_words (word_index i.toNat) % 2 ^ 32) >>>
                     first_bit_position i.toNat) % 2 ^ 16) &&& 0x3FFF))
    else (f, .assertFail)

/-- State-passing translation of `get_u`. -/
def get_u_st (f : WIB2Frame) (femb i : Int) : WIB2Frame × AdcResult :=
  get_adc_st f (128 * femb + i)

/-- State-passing translation of `get_v`. -/
def get_v_st (f : WIB2Frame) (femb i : Int) : WIB2Frame × AdcResult :=
  get_adc_st f (128 * femb + 40 + i)

/-- State-passing translation of `get_x`. -/
def get_x_st (f : WIB2Frame) (femb i : Int) : WIB2Frame × AdcResult :=
  get_adc_st f (128 * femb + 40 + 40 + i)

/-- State-passing translation of `timestamp`. -/
def timestamp_st (f : WIB2Frame) : WIB2Frame × Nat :=
  (f, (f.header.timestamp_1 % 2 ^ 32) |||
        ((f.header.timestamp_2 % 2 ^ 32) <<< 32) % 2 ^ 64)

/-!
Theorems.  First, supporting lemmas shared by the claim theorems; the
claim-settling theorems follow.
-/

/-- The source's second-word branch condition `bits_from_first_word < 32`
holds for every index: `bits_from_first_word` is a `min` with 14, so it
never reaches 32.  The branch reading `adc_words[word_index + 1]` is
therefore taken unconditionally. -/
theorem reads_second_word_eq_true (n : Nat) : reads_second_word n = true := by
  simp only [reads_second_word, bits_from_first_word, decide_eq_true_eq]
  omega

/-- Extracting 14 bits at offset `14 * i` from the packed stream recovers
the `i`-th packed value (truncated to its 14-bit field). -/
theorem packFrom_shiftRight_mod (v : Nat → Nat) :
    ∀ (fuel k i : Nat), i < fuel →
      (packFrom v k fuel >>> (14 * i)) % 2 ^ 14 = v (k + i) % 2 ^ 14 := by
  intro fuel
  induction fuel with
  | zero => intro k i h; omega
  | succ fuel ih =>
    intro k i h
    cases i with
    | zero =>
      simp only [Nat.mul_zero, Nat.shiftRight_zero, packFrom, Nat.add_zero]
      omega
    | succ i' =>
      have h14 : 14 * (i' + 1) = 14 + 14 * i' := by ring
      have hdrop : packFrom v k (fuel + 1) >>> 14 = packFrom v (k + 1) fuel := by
        rw [packFrom, Nat.shiftRight_eq_div_pow,
          Nat.add_mul_div_left _ _ (by norm_num : 0 < 2 ^ 14),
          Nat.div_eq_of_lt (Nat.mod_lt _ (by norm_num)), Nat.zero_add]
      have hidx : k + 1 + i' = k + (i' + 1) := by omega
      rw [h14, Nat.shiftRight_add, hdrop, ih (k + 1) i' (by omega), hidx]

/-- Bit-level correctness of the two-word extraction arithmetic: for any
bit stream `S`, reading 32-bit words `wi` and `wi + 1` of `S`, shifting,
combining with the source's expression and masking to 14 bits yields the
14 bits of `S` at offset `14 * n`, whenever `32 * wi + pos = 14 * n` with
`pos < 32`. -/
theorem extract_general (S wi pos n : Nat) (hsum : 32 * wi + pos = 14 * n)
    (hpos : pos < 32) :
    (((((S >>> (32 * wi)) % 2 ^ 32) >>> pos) % 2 ^ 16 |||
        (((S >>> (32 * (wi + 1))) % 2 ^ 32) <<< min 14 (32 - pos)) % 2 ^ 32) %
          2 ^ 16) &&& 0x3FFF = (S >>> (14 * n)) % 2 ^ 14 := by
  have h14 : (0x3FFF : Nat) = 2 ^ 14 - 1 := by norm_num
  rw [h14, Nat.and_pow_two_sub_one_eq_mod,
    Nat.mod_mod_of_dvd _ (by norm_num : (2 : Nat) ^ 14 ∣ 2 ^ 16)]
  apply Nat.eq_of_testBit_eq
  intro j
  simp only [Nat.testBit_mod_two_pow, Nat.testBit_or, Nat.testBit_shiftLeft,
    Nat.testBit_shiftRight]
  rcases Nat.lt_or_ge j 14 with hj | hj
  · have ht : decide (j < 14) = true := decide_eq_true hj
    rw [ht, Bool.true_and, Bool.true_and]
    rcases Nat.lt_or_ge pos 19 with hp | hp
    · have hm : min 14 (32 - pos) = 14 := by omega
      have h1 : decide (j < 16) = true := decide_eq_true (by omega)
      have h2 : decide (pos + j < 32) = true := decide_eq_true (by omega)
      have h3 : decide (j ≥ (14 : Nat)) = false := decide_eq_false (by omega)
      rw [hm, h1, h2, h3]
      simp only [Bool.true_and, Bool.false_and, Bool.and_false, Bool.or_false]
      exact congrArg S.testBit (by omega)
    · have hm : min 14 (32 - pos) = 32 - pos := by omega
      rw [hm]
      rcases Nat.lt_or_ge j (32 - pos) with hq | hq
      · have h1 : decide (j < 16) = true := decide_eq_true (by omega)
        have h2 : decide (pos + j < 32) = true := decide_eq_true (by omega)
        have h3 : decide (j ≥ 32 - pos) = false := decide_eq_false (by omega)
        rw [h1, h2, h3]
        simp only [Bool.true_and, Bool.false_and, Bool.and_false, Bool.or_false]
        exact congrArg S.testBit (by omega)
      · have h2 : decide (pos + j < 32) = false := decide_eq_false (by omega)
        have h3 : decide (j < 32) = true := decide_eq_true (by omega)
        have h4 : decide (j ≥ 32 - pos) = true := decide_eq_true (by omega)
        have h5 : decide (j - (32 - pos) < 32) = true := decide_eq_true (by omega)
        rw [h2, h3, h4, h5]
        simp only [Bool.true_and, Bool.false_and, Bool.and_false, Bool.false_or]
        exact congrArg S.testBit (by omega)
  · have hf : decide (j < 14) = false := decide_eq_false (by omega)
    rw [hf, Bool.false_and, Bool.false_and]

/-- For `n ≤ 253` the call reaches the unconditional second-word read with
both word indices in extent and returns the combined masked value. -/
theorem get_adc_straddle_form (f : WIB2Frame) (n : Nat) (hn : n ≤ 253) :
    get_adc f (n : Int) =
      .ok (((((f.adc_words (word_index n) % 2 ^ 32) >>> first_bit_position n) %
                2 ^ 16 |||
              ((f.adc_words (word_index n + 1) % 2 ^ 32) <<<
                bits_from_first_word n) % 2 ^ 32) % 2 ^ 16) &&& 0x3FFF) := by
  have hrange : ¬ ((n : Int) < 0 ∨ 255 < (n : Int)) := by omega
  have hwi : word_index n < 112 := by unfold word_index; omega
  have hwi1 : word_index n + 1 < 112 := by unfold word_index; omega
  have hrs : reads_second_word n = true := reads_second_word_eq_true n
  simp only [get_adc, Int.toNat_ofNat]
  rw [if_neg hrange, if_pos hwi, if_pos hrs, if_pos hwi1]

/-- Round trip over the spec's packing, away from the defective final
indices: for every choice of 14-bit values and every `n ≤ 253`, `get_adc`
on the packed frame returns `v n`.  (At `n = 254, 255` the call instead
aborts; see `get_adc_packed_254_assert_failure`.) -/
theorem get_adc_packedFrame_of_le_253 (v : Nat → Nat) (n : Nat) (hn : n ≤ 253)
    (hv : v n < 2 ^ 14) :
    get_adc (packedFrame v) (n : Int) = .ok (v n) := by
  rw [get_adc_straddle_form (packedFrame v) n hn]
  have hsum : 32 * word_index n + first_bit_position n = 14 * n := by
    unfold word_index first_bit_position
    omega
  have hposlt : first_bit_position n < 32 := by
    unfold first_bit_position
    omega
  simp only [packedFrame, packWord, bits_from_first_word,
    Nat.mod_mod_of_dvd _ (dvd_refl ((2 : Nat) ^ 32))]
  rw [extract_general (packStream v) (word_index n) (first_bit_position n) n
      hsum hposlt]
  rw [packStream, packFrom_shiftRight_mod v 256 0 n (by omega), Nat.zero_add,
    Nat.mod_eq_of_lt hv]

/-- The first assert of `get_adc` (`word_index < 112`, line 74) does hold
for every in-range index. -/
theorem word_index_lt_112 (n : Nat) (hn : n ≤ 255) : word_index n < 112 := by
  unfold word_index
  omega

/-- Away from the defective final indices, the returned value is a 14-bit
quantity: the final mask bounds it by `0x3FFF = 16383`. -/
theorem get_adc_value_le_16383 (f : WIB2Frame) (n : Nat) (hn : n ≤ 253) :
    ∃ v, get_adc f (n : Int) = .ok v ∧ v ≤ 0x3FFF :=
  ⟨_, get_adc_straddle_form f n hn, Nat.and_le_right⟩

/-- Claim C1 (counter-evidence): on the frame packing the constant 14-bit
value `0x3FFF` at every sample position, `get_adc 254` does not return
`v 254 = 0x3FFF` — it aborts on the assert `word_index + 1 < 112`, because
the source's straddle test `bits_from_first_word < BITS_PER_WORD` (always
true) makes it read a second payload word even at index 254, where
`word_index = 111`.  The round trip therefore fails at indices 254 and 255
(it holds for `0 ≤ i ≤ 253`; see `get_adc_packedFrame_of_le_253`). -/
theorem get_adc_packed_254_assert_failure :
    get_adc (packedFrame fun _ => 0x3FFF) 254 = .assertFail := rfl

/-- Claim C2 (counter-evidence): at index 254 the code takes the
second-word branch (`reads_second_word`) although `word_index 254 = 111`,
so the accessed second index is `112 > 111` and the assert
`word_index + 1 < 112` on line 82 fails: `get_adc` at 254 aborts. -/
theorem get_adc_second_assert_violation :
    word_index 254 = 111 ∧ reads_second_word 254 = true ∧
      get_adc zeroFrame 254 = .assertFail := by decide

/-- Claim C3 (counter-evidence): the branch reading the second payload word
is taken for every index — its condition is `bits_from_first_word < 32`,
not `bits_from_first_word < 14` — so at index 0, where
`bits_from_first_word = 14` (no straddle, `first_bit_position = 0 ≤ 18`),
the second word is still read, refuting the claimed "if and only if". -/
theorem reads_second_word_unconditional :
    (∀ n : Nat, reads_second_word n = true) ∧
      reads_second_word 0 = true ∧ ¬ bits_from_first_word 0 < 14 ∧
        first_bit_position 0 ≤ 18 := by
  refine ⟨fun n => ?_, by decide, by decide, by decide⟩
  simp only [reads_second_word, bits_from_first_word, decide_eq_true_eq]
  omega

/-- Claim C4 (counterexample): the claim's size and trailer placement are
false of the declared bitfields.  `eof` is indeed at bits 0-7 of frame word
117, but `flex_word_24` fits in the remaining 24 bits of that same word
(8 + 24 = 32), so it sits at bits 8-31 of word 117, not in a separate word
118, and the whole frame is 118 words (472 bytes), not 119 (476). -/
theorem trailer_layout_counterexample :
    ¬ (frameSizeWords = 119 ∧ frameSizeBytes = 476 ∧
        eofPlacement = (117, 0, 8) ∧ flexWord24Placement = (118, 0, 24)) := by
  decide

/-- Claim C4 (amended): the frame occupies 118 32-bit words (472 bytes): a
4-word header, the 112-word ADC payload at words 4-115, and a 2-word
trailer with `crc20` at bits 0-19 and `flex_word_12` at bits 20-31 of word
116, and `eof` at bits 0-7 and `flex_word_24` at bits 8-31 of word 117. -/
theorem frame_layout_amended :
    headerEndBit = 32 * 4 ∧ frameSizeWords = 118 ∧ frameSizeBytes = 472 ∧
      trailerLayout = [(116, 0, 20), (116, 20, 12), (117, 0, 8), (117, 8, 24)] := by
  decide

/-- Claim C6 (counter-evidence): `get_u femb i` with `femb = 0` and the
out-of-group index `i = 254` translates to flat index `254 ∈ [0, 255]`, yet
it does not return a neighboring channel's sample value without error: the
underlying `get_adc` aborts on the failing line-82 assert. -/
theorem get_u_translated_in_range_fails :
    ((0 : Int) ≤ 128 * 0 + 254 ∧ 128 * 0 + 254 ≤ 255) ∧
      get_u zeroFrame 0 254 = .assertFail := by decide

/-- Claim C7 (counter-evidence): at the in-range index 255 `get_adc` does
not return any value at all (in `[0, 16383]` or otherwise): it aborts on
the failing line-82 assert. -/
theorem get_adc_255_returns_no_value :
    get_adc maxFrame 255 = .assertFail ∧
      ∀ v : Nat, get_adc maxFrame 255 ≠ .ok v := by
  refine ⟨by decide, fun v h => ?_⟩
  rw [show get_adc maxFrame 255 = AdcResult.assertFail from by decide] at h
  exact AdcResult.noConfusion h

/-- Claim C5: the out-of-range error is raised exactly when `i < 0` or
`i > 255`, and in that failing case the result is computed from `i` alone —
no part of any frame is read (any two frames give the same outcome). -/
theorem get_adc_outOfRange_iff (f : WIB2Frame) (i : Int) :
    (get_adc f i = .outOfRange ↔ (i < 0 ∨ 255 < i)) ∧
      ((i < 0 ∨ 255 < i) → ∀ g : WIB2Frame, get_adc f i = get_adc g i) := by
  by_cases h : i < 0 ∨ 255 < i
  · exact ⟨⟨fun _ => h, fun _ => by simp [get_adc, h]⟩,
      fun _ g => by simp [get_adc, h]⟩
  · refine ⟨⟨fun hbad => ?_, fun hc => absurd hc h⟩, fun hc => absurd hc h⟩
    simp only [get_adc, if_neg h] at hbad
    repeat' split at hbad
    all_goals exact AdcResult.noConfusion hbad

/-- Claim C5 witness: at the concrete out-of-range index 300, `get_adc`
raises the out-of-range error, and two frames differing in every payload
word agree on the outcome. -/
theorem get_adc_outOfRange_iff_witness :
    get_adc zeroFrame 300 = .outOfRange ∧
      get_adc zeroFrame 300 = get_adc maxFrame 300 :=
  ⟨(get_adc_outOfRange_iff zeroFrame 300).1.mpr (Or.inr (by decide)),
   (get_adc_outOfRange_iff zeroFrame 300).2 (Or.inr (by decide)) maxFrame⟩

/-- Claim C8: `timestamp` assembles the 64-bit value
`timestamp_1 + timestamp_2 * 2 ^ 32` from the two 32-bit timestamp header
words, with `timestamp_1` as the low-order half. -/
theorem timestamp_eq_low_add_high_mul (f : WIB2Frame)
    (h1 : f.header.timestamp_1 < 2 ^ 32) (h2 : f.header.timestamp_2 < 2 ^ 32) :
    timestamp f = f.header.timestamp_1 + f.header.timestamp_2 * 2 ^ 32 := by
  have hm : f.header.timestamp_2 * 2 ^ 32 < 2 ^ 64 := by omega
  unfold timestamp
  rw [Nat.mod_eq_of_lt h1, Nat.mod_eq_of_lt h2, Nat.shiftLeft_eq,
    Nat.mod_eq_of_lt hm, Nat.mul_comm f.header.timestamp_2 (2 ^ 32),
    Nat.lor_comm, ← Nat.mul_add_lt_is_or h1, Nat.add_comm]

/-- Claim C8 witness: `timestamp_1 = 0xFFFFFFFF`, `timestamp_2 = 1` yields
`0x1FFFFFFFF`. -/
theorem timestamp_eq_low_add_high_mul_witness :
    timestamp tsFrame = 0x1FFFFFFFF ∧
      tsFrame.header.timestamp_1 = 0xFFFFFFFF ∧ tsFrame.header.timestamp_2 = 1 :=
  ⟨timestamp_eq_low_add_high_mul tsFrame (by decide) (by decide), rfl, rfl⟩

/-- Bits contributed by the second payload word are shifted up by 14 and
therefore removed by the final 14-bit mask: the combined-and-masked result
does not depend on `w`. -/
theorem masked_or_second (a w : Nat) :
    ((a ||| (w <<< 14) % 2 ^ 32) % 2 ^ 16) &&& 0x3FFF = (a % 2 ^ 16) &&& 0x3FFF := by
  have h14 : (0x3FFF : Nat) = 2 ^ 14 - 1 := by norm_num
  rw [h14, Nat.and_pow_two_sub_one_eq_mod, Nat.and_pow_two_sub_one_eq_mod,
    Nat.mod_mod_of_dvd _ (by norm_num : (2 : Nat) ^ 14 ∣ 2 ^ 16),
    Nat.mod_mod_of_dvd _ (by norm_num : (2 : Nat) ^ 14 ∣ 2 ^ 16)]
  apply Nat.eq_of_testBit_eq
  intro j
  rw [Nat.testBit_mod_two_pow, Nat.testBit_mod_two_pow, Nat.testBit_or,
    Nat.testBit_mod_two_pow, Nat.testBit_shiftLeft]
  rcases Nat.lt_or_ge j 14 with hj | hj
  · have hf : decide (j ≥ 14) = false := decide_eq_false (by omega)
    rw [hf, Bool.false_and, Bool.and_false, Bool.or_false]
  · have hf : decide (j < 14) = false := decide_eq_false (by omega)
    rw [hf, Bool.false_and, Bool.false_and]

/-- Claim C9: for an index whose 14-bit field does not straddle a word
boundary (`first_bit_position n ≤ 18`), the outcome of `get_adc` depends
only on payload word `word_index n`: frames agreeing there agree on the
result, the unconditionally read following word being discarded by the
`uint16_t` truncation and the `0x3FFF` mask. -/
theorem get_adc_nonstraddle_local (f g : WIB2Frame) (n : Nat)
    (hn : n ≤ 255) (hpos : first_bit_position n ≤ 18)
    (hag : f.adc_words (word_index n) = g.adc_words (word_index n)) :
    get_adc f (n : Int) = get_adc g (n : Int) := by
  have hrange : ¬ ((n : Int) < 0 ∨ 255 < (n : Int)) := by omega
  have hb : bits_from_first_word n = 14 := by
    unfold bits_from_first_word
    omega
  have hrs : reads_second_word n = true := by
    simp [reads_second_word, hb]
  simp only [get_adc, if_neg hrange, Int.toNat_ofNat, hrs, if_true, hb, hag]
  split
  · rw [masked_or_second, masked_or_second]
  · rfl

/-- Claim C9 witness: at index 0 (`first_bit_position 0 = 0`), the all-zero
frame and a frame differing only in payload word 1 agree on `get_adc 0`. -/
theorem get_adc_nonstraddle_local_witness :
    get_adc zeroFrame (0 : Int) = get_adc oneWordFrame 0 ∧
      zeroFrame.adc_words (word_index 0) = oneWordFrame.adc_words (word_index 0) ∧
      zeroFrame.adc_words 1 ≠ oneWordFrame.adc_words 1 :=
  ⟨get_adc_nonstraddle_local zeroFrame oneWordFrame 0 (by decide) (by decide)
      (by decide),
   by decide, by decide⟩

/-- The state-passing translation returns the same result as the pure
embedding of `get_adc`. -/
theorem get_adc_st_snd (f : WIB2Frame) (i : Int) :
    (get_adc_st f i).2 = get_adc f i := by
  unfold get_adc_st get_adc
  repeat' split
  all_goals rfl

/-- Claim C10: no accessor mutates the frame — on every path (value
returned, out-of-range error, or assert failure) of every accessor, the
frame component of the state-passing translation is the incoming frame. -/
theorem accessors_leave_frame_unchanged :
    ∀ (f : WIB2Frame) (i femb : Int),
      (get_adc_st f i).1 = f ∧ (get_u_st f femb i).1 = f ∧
        (get_v_st f femb i).1 = f ∧ (get_x_st f femb i).1 = f ∧
          (timestamp_st f).1 = f := by
  have hadc : ∀ (f : WIB2Frame) (j : Int), (get_adc_st f j).1 = f := by
    intro f j
    unfold get_adc_st
    repeat' split
    all_goals rfl
  intro f i femb
  exact ⟨hadc f i, hadc f _, hadc f _, hadc f _, rfl⟩

end WIB2
